import Mathlib

/-!
A shallow embedding of the broadcast node in `src/main.rs` (a Maelstrom-style
gossip/broadcast participant), together with proofs about its message-handling
state machine.

Modelling conventions:
* `usize` / `u64` counters become `Nat` (the `msg_ids` counter only ever
  increments by one from zero, so overflow is immaterial to the properties
  proved here).
* `HashSet<usize>` (the seen-value store) becomes a `List Nat` manipulated
  exactly as the source does: a `contains` check guards the insertion, so the
  list stays duplicate-free.
* `HashMap<u64, (String, Body)>` (the pending table) becomes an association
  list with insert-replaces-key semantics (`mapInsert`) and key removal
  (`eraseKey`); iteration order of the Rust map is unspecified, and no theorem
  below depends on the order chosen here.
* A Rust `panic!` / `.unwrap()` on `None` is modelled by returning `none`:
  every fallible operation returns `Option`.
* Writing a line to stdout is modelled by appending the envelope to the list
  of outbound messages an operation returns.
* `format!("{}-{}", node.id, node.msg_ids)` is modelled by `mkId`, which
  renders the counter in decimal (`toDec`) exactly as Rust's `Display for u64`
  does.
-/

/-- The closed set of payload variants (`enum Payload` in the source). -/
inductive Payload where
  | Echo (echo : String)
  | EchoOk (echo : String)
  | Init (node_id : String) (node_ids : List String)
  | InitOk
  | Generate
  | GenerateOk (id : String)
  | Broadcast (message : Nat)
  | BroadcastOk
  | Read
  | ReadOk (messages : List Nat)
  | Topology (topology : List (String × List String))
  | TopologyOk
  deriving DecidableEq, Repr

/-- Mirrors `struct Body`: optional `msg_id`, optional `in_reply_to`, and the payload
(the `extra` flattened field). -/
structure Body where
  msg_id : Option Nat
  in_reply_to : Option Nat
  extra : Payload
  deriving DecidableEq, Repr

/-- Mirrors `struct Msg`: the envelope `{src, dest, body}`. -/
structure Msg where
  src : String
  dest : String
  body : Body
  deriving DecidableEq, Repr

/-- Decimal digit character, as in Rust's integer `Display` (and Lean's own
digit rendering): `0 ↦ '0'`, ..., `9 ↦ '9'`. -/
def decChar (d : Nat) : Char := Char.ofNat (48 + d)

/-- Fuel-driven decimal rendering worker (structural recursion on the fuel,
so that it reduces inside the kernel); adequate whenever `n < fuel`. -/
def toDecAux : Nat → Nat → List Char
  | 0, _ => []
  | fuel + 1, n =>
    if n < 10 then [decChar n]
    else toDecAux fuel (n / 10) ++ [decChar (n % 10)]

/-- Decimal rendering of a natural number, most significant digit first;
models `format!("{}", n)` for the `u64` counter. -/
def toDec (n : Nat) : List Char := toDecAux (n + 1) n

/-- Models `format!("{}-{}", node.id, node.msg_ids)`. -/
def mkId (nid : String) (c : Nat) : String :=
  nid ++ "-" ++ String.mk (toDec c)

/-- Remove the entry stored under key `k` (`HashMap::remove`, result value
discarded as in the source). -/
def eraseKey (k : Nat) (m : List (Nat × String × Body)) : List (Nat × String × Body) :=
  m.filter (fun p => decide (p.1 ≠ k))

/-- Insert `(dest, body)` under key `k`, replacing any entry already stored
under `k` (`HashMap::insert`). -/
def mapInsert (k : Nat) (v : String × Body) (m : List (Nat × String × Body)) :
    List (Nat × String × Body) :=
  (k, v) :: eraseKey k m

/-- The keys of the pending table. -/
def keysOf (m : List (Nat × String × Body)) : List Nat := m.map (·.1)

/-- Mirrors `struct Node`: node state (stdout handle omitted — outbound messages are
returned explicitly instead). -/
structure Node where
  id : String
  nodes : List String
  msg_ids : Nat
  messages : List Nat
  pending : List (Nat × String × Body)
  deriving DecidableEq, Repr

/-- Mirrors `Node::new`. -/
def Node.new (id : String) (nodes : List String) : Node :=
  { id := id, nodes := nodes, msg_ids := 0, messages := [], pending := [] }

/-- Mirrors `Node::send`: bump the counter, stamp the body with the fresh `msg_id`,
and emit the envelope. -/
def Node.send (n : Node) (dest : String) (body : Body) : Node × Msg :=
  let n' : Node := { n with msg_ids := n.msg_ids + 1 }
  (n', { src := n.id, dest := dest, body := { body with msg_id := some n'.msg_ids } })

/-- Mirrors `Node::rpc`: record a pending entry keyed by `body.msg_id.unwrap()` (the
id already on the body, *before* `send` stamps a fresh one), then send.
`unwrap` of a missing `msg_id` is a panic, modelled as `none`. -/
def Node.rpc (n : Node) (dest : String) (body : Body) : Option (Node × Msg) :=
  match body.msg_id with
  | none => none
  | some k =>
    let n' : Node := { n with pending := mapInsert k (dest, body) n.pending }
    some (n'.send dest body)

/-- The loop body of `Node::handle` for a fresh broadcast: walk the peer
list, skip self and the message's source, `rpc` the inbound body to every
other peer. -/
def Node.forwardAll (n : Node) (msg : Msg) : List String → Option (Node × List Msg)
  | [] => some (n, [])
  | peer :: rest =>
    if peer = n.id ∨ peer = msg.src then n.forwardAll msg rest
    else
      match n.rpc peer msg.body with
      | none => none
      | some (n', m) =>
        match n'.forwardAll msg rest with
        | none => none
        | some (n'', ms) => some (n'', m :: ms)

/-- The loop of `Node::gossip` over the drained pending entries. -/
def Node.gossipGo (n : Node) : List (Nat × String × Body) → Option (Node × List Msg)
  | [] => some (n, [])
  | (_, dest, body) :: rest =>
    match n.rpc dest body with
    | none => none
    | some (n', m) =>
      match n'.gossipGo rest with
      | none => none
      | some (n'', ms) => some (n'', m :: ms)

/-- Mirrors `Node::gossip`: drain the pending table and re-`rpc` every entry. -/
def Node.gossip (n : Node) : Option (Node × List Msg) :=
  Node.gossipGo { n with pending := [] } n.pending

/-- Mirrors `Body::reply`: the at-most-one reply body for an inbound body, computed
against the (already updated) node state. -/
def Body.reply (b : Body) (node : Node) : Option Body :=
  match b.extra with
  | Payload.Init _ _ =>
    some { msg_id := none, in_reply_to := b.msg_id, extra := Payload.InitOk }
  | Payload.Echo echo =>
    some { msg_id := none, in_reply_to := b.msg_id, extra := Payload.EchoOk echo }
  | Payload.Generate =>
    some { msg_id := none, in_reply_to := b.msg_id,
           extra := Payload.GenerateOk (mkId node.id node.msg_ids) }
  | Payload.Broadcast _ =>
    some { msg_id := none, in_reply_to := b.msg_id, extra := Payload.BroadcastOk }
  | Payload.Read =>
    some { msg_id := none, in_reply_to := b.msg_id,
           extra := Payload.ReadOk node.messages }
  | Payload.Topology _ =>
    some { msg_id := none, in_reply_to := b.msg_id, extra := Payload.TopologyOk }
  | Payload.EchoOk _ => none
  | Payload.InitOk => none
  | Payload.GenerateOk _ => none
  | Payload.BroadcastOk => none
  | Payload.ReadOk _ => none
  | Payload.TopologyOk => none

/-- The side-effect part of `Node::handle`: the `match` on the inbound
payload (broadcast dedup + flood, broadcast_ok pending removal, all other
kinds no-op). -/
def Node.dispatch (n : Node) (msg : Msg) : Option (Node × List Msg) :=
  match msg.body.extra with
  | Payload.Broadcast message =>
    if message ∈ n.messages then some (n, [])
    else
      Node.forwardAll { n with messages := message :: n.messages } msg n.nodes
  | Payload.BroadcastOk =>
    match msg.body.in_reply_to with
    | none => none
    | some k => some ({ n with pending := eraseKey k n.pending }, [])
  | _ => some (n, [])

/-- Mirrors `Node::handle`: dispatch the side effects, then send the reply (if any)
back to the envelope's source. -/
def Node.handle (n : Node) (msg : Msg) : Option (Node × List Msg) :=
  match n.dispatch msg with
  | none => none
  | some (n1, outs) =>
    match msg.body.reply n1 with
    | none => some (n1, outs)
    | some b =>
      let r := n1.send msg.src b
      some (r.1, outs ++ [r.2])

/-- The bootstrap step of `main`: the first decoded message must be `init`
(anything else panics, modelled as `none`); on `init` the node is created
with the given identity and peer list and `init_ok` is sent back. -/
def bootstrap (msg : Msg) : Option (Node × Msg) :=
  match msg.body.extra with
  | Payload.Init node_id node_ids =>
    let n := Node.new node_id node_ids
    match msg.body.reply n with
    | none => none
    | some b => some (n.send msg.src b)
  | _ => none

/-- The two event sources of the main loop: a decoded inbound line, or a
gossip timer tick. -/
inductive Event where
  | msg (m : Msg)
  | tick
  deriving Repr

/-- One iteration of the main loop. -/
def Node.step (n : Node) : Event → Option (Node × List Msg)
  | Event.msg m => n.handle m
  | Event.tick => n.gossip

/-- Run the main loop over a list of events, accumulating outbound
messages. -/
def Node.run (n : Node) : List Event → Option (Node × List Msg)
  | [] => some (n, [])
  | e :: es =>
    match n.step e with
    | none => none
    | some (n', outs) =>
      match n'.run es with
      | none => none
      | some (n'', outs') => some (n'', outs ++ outs')

/-- The broadcast value carried by an event, if it is an inbound `broadcast`
message. -/
def evVal : Event → Option Nat
  | Event.msg m =>
    match m.body.extra with
    | Payload.Broadcast v => some v
    | _ => none
  | Event.tick => none

/-- The broadcast values carried by the `broadcast` messages of an event
list. -/
def bvals (evs : List Event) : List Nat := evs.filterMap evVal

/-- The ids carried by `generate_ok` payloads among outbound messages. -/
def genIds (outs : List Msg) : List String :=
  outs.filterMap (fun m =>
    match m.body.extra with
    | Payload.GenerateOk id => some id
    | _ => none)

/-- Outbound messages whose payload is a broadcast propagation. -/
def propOuts (outs : List Msg) : List Msg :=
  outs.filter (fun m =>
    match m.body.extra with
    | Payload.Broadcast _ => true
    | _ => false)

/-- Every pending entry stores a broadcast payload (true in every reachable
state: entries are only created from inbound `broadcast` bodies). -/
def pendingBroadcast (n : Node) : Prop :=
  ∀ e ∈ n.pending, ∃ v, e.2.2.extra = Payload.Broadcast v

/-! ### Decimal rendering facts (for `generate` id uniqueness) -/

theorem decChar_ne_dash {d : Nat} (hd : d < 10) : decChar d ≠ '-' := by
  have h : ∀ d, d < 10 → decChar d ≠ '-' := by decide
  exact h d hd

theorem decChar_toNat {d : Nat} (hd : d < 10) : (decChar d).toNat = 48 + d := by
  have h : ∀ d, d < 10 → (decChar d).toNat = 48 + d := by decide
  exact h d hd

theorem toDecAux_chars :
    ∀ (fuel n : Nat), n < fuel →
      ∀ c ∈ toDecAux fuel n, ∃ d, d < 10 ∧ c = decChar d := by
  intro fuel
  induction fuel with
  | zero => intro n hn; omega
  | succ fuel ih =>
    intro n hn c hc
    rw [toDecAux] at hc
    split at hc
    · rename_i h
      simp only [List.mem_singleton] at hc
      exact ⟨n, h, hc⟩
    · rename_i h
      rcases List.mem_append.mp hc with hc | hc
      · have hdiv : n / 10 < n := Nat.div_lt_self (by omega) (by decide)
        exact ih (n / 10) (by omega) c hc
      · simp only [List.mem_singleton] at hc
        exact ⟨n % 10, Nat.mod_lt _ (by decide), hc⟩

theorem toDec_chars (n : Nat) : ∀ c ∈ toDec n, ∃ d, d < 10 ∧ c = decChar d :=
  toDecAux_chars (n + 1) n (Nat.lt_succ_self n)

theorem dash_not_mem_toDec (n : Nat) : '-' ∉ toDec n := by
  intro hm
  obtain ⟨d, hd, hc⟩ := toDec_chars n '-' hm
  exact decChar_ne_dash hd hc.symm

/-- Evaluate a decimal digit string back to the number it denotes. -/
def decVal (l : List Char) : Nat :=
  l.foldl (fun a c => 10 * a + (c.toNat - 48)) 0

theorem toDecAux_foldl :
    ∀ (fuel n : Nat), n < fuel → ∀ a,
      (toDecAux fuel n).foldl (fun a c => 10 * a + (c.toNat - 48)) a =
        a * 10 ^ (toDecAux fuel n).length + n := by
  intro fuel
  induction fuel with
  | zero => intro n hn; omega
  | succ fuel ih =>
    intro n hn a
    rw [toDecAux]
    split
    · rename_i h
      simp [List.foldl, decChar_toNat h]
      omega
    · rename_i h
      have hdiv : n / 10 < n := Nat.div_lt_self (by omega) (by decide)
      rw [List.foldl_append, ih (n / 10) (by omega), List.length_append]
      simp [List.foldl,
        decChar_toNat (Nat.mod_lt n (show 0 < 10 by decide))]
      have hpow : 10 ^ ((toDecAux fuel (n / 10)).length + 1) =
          10 ^ (toDecAux fuel (n / 10)).length * 10 := by ring
      rw [hpow]
      have := Nat.div_add_mod n 10
      ring_nf
      omega

theorem decVal_toDec (n : Nat) : decVal (toDec n) = n := by
  unfold decVal toDec
  rw [toDecAux_foldl (n + 1) n (Nat.lt_succ_self n) 0]
  simp

theorem toDec_inj {i j : Nat} (h : toDec i = toDec j) : i = j := by
  have := decVal_toDec i
  rw [h, decVal_toDec] at this
  omega

theorem str_data_append (a b : String) : (a ++ b).data = a.data ++ b.data := by
  cases a; cases b; rfl

theorem str_data_inj {a b : String} (h : a.data = b.data) : a = b := by
  cases a; cases b; exact congrArg String.mk h

theorem split_at_mark {α : Type} [DecidableEq α] (c : α) :
    ∀ (xs : List α) (us ys vs : List α), c ∉ xs → c ∉ us →
      xs ++ c :: ys = us ++ c :: vs → xs = us ∧ ys = vs := by
  intro xs
  induction xs with
  | nil =>
    intro us ys vs _ hu h
    cases us with
    | nil => simpa using h
    | cons u ut =>
      simp only [List.nil_append, List.cons_append, List.cons.injEq] at h
      exact absurd (List.mem_cons_self u ut) (by rw [← h.1] at hu ⊢; exact hu)
  | cons x xt ih =>
    intro us ys vs hx hu h
    cases us with
    | nil =>
      simp only [List.cons_append, List.nil_append, List.cons.injEq] at h
      exact absurd (h.1 ▸ List.mem_cons_self x xt) hx
    | cons u ut =>
      simp only [List.cons_append, List.cons.injEq] at h
      obtain ⟨rfl, h2⟩ := h
      have hx' : c ∉ xt := fun hm => hx (List.mem_cons_of_mem _ hm)
      have hu' : c ∉ ut := fun hm => hu (List.mem_cons_of_mem _ hm)
      obtain ⟨h3, h4⟩ := ih ut ys vs hx' hu' h2
      exact ⟨by rw [h3], h4⟩

theorem mkId_data (a : String) (i : Nat) :
    (mkId a i).data = a.data ++ '-' :: toDec i := by
  unfold mkId
  rw [str_data_append, str_data_append]
  simp

theorem mkId_inj {a b : String} {i j : Nat} (h : mkId a i = mkId b j) :
    a = b ∧ i = j := by
  have hd : a.data ++ '-' :: toDec i = b.data ++ '-' :: toDec j := by
    rw [← mkId_data, ← mkId_data, h]
  have hrev : (toDec i).reverse ++ '-' :: a.data.reverse =
      (toDec j).reverse ++ '-' :: b.data.reverse := by
    have := congrArg List.reverse hd
    simpa [List.reverse_append] using this
  have h1 : '-' ∉ (toDec i).reverse := by
    rw [List.mem_reverse]; exact dash_not_mem_toDec i
  have h2 : '-' ∉ (toDec j).reverse := by
    rw [List.mem_reverse]; exact dash_not_mem_toDec j
  obtain ⟨ha, hb⟩ := split_at_mark '-' _ _ _ _ h1 h2 hrev
  refine ⟨str_data_inj ?_, toDec_inj (List.reverse_injective ha)⟩
  have := congrArg List.reverse hb
  simpa using this

/-! ### Flood-forwarding lemmas -/

theorem forwardAll_sound (msg : Msg) :
    ∀ (peers : List String) (n n' : Node) (ms : List Msg),
      n.forwardAll msg peers = some (n', ms) →
      n'.id = n.id ∧ n'.nodes = n.nodes ∧ n'.messages = n.messages ∧
      n.msg_ids ≤ n'.msg_ids ∧
      ms.map (fun m => m.dest) =
        peers.filter (fun p => !(decide (p = n.id ∨ p = msg.src))) ∧
      (∀ m ∈ ms, m.src = n.id ∧ m.body.extra = msg.body.extra ∧
        m.body.in_reply_to = msg.body.in_reply_to ∧ ∃ j, m.body.msg_id = some j) ∧
      (∀ e ∈ n'.pending, e ∈ n.pending ∨ e.2.2 = msg.body) := by
  intro peers
  induction peers with
  | nil =>
    intro n n' ms h
    simp only [Node.forwardAll, Option.some.injEq, Prod.mk.injEq] at h
    obtain ⟨rfl, rfl⟩ := h
    exact ⟨rfl, rfl, rfl, Nat.le_refl _, rfl, by simp, fun e he => Or.inl he⟩
  | cons peer rest ih =>
    intro n n' ms h
    simp only [Node.forwardAll] at h
    by_cases hskip : peer = n.id ∨ peer = msg.src
    · rw [if_pos hskip] at h
      obtain ⟨h1, h2, h3, h4, h5, h6, h7⟩ := ih n n' ms h
      refine ⟨h1, h2, h3, h4, ?_, h6, h7⟩
      rw [List.filter_cons_of_neg (by simp; tauto)]
      exact h5
    · rw [if_neg hskip] at h
      cases hmi : msg.body.msg_id with
      | none => rw [Node.rpc, hmi] at h; exact absurd h (by simp)
      | some k =>
        rw [Node.rpc, hmi] at h
        simp only [Node.send] at h
        cases hrec : Node.forwardAll
            { n with pending := mapInsert k (peer, msg.body) n.pending,
                     msg_ids := n.msg_ids + 1 } msg rest with
        | none => rw [hrec] at h; exact absurd h (by simp)
        | some r =>
          rw [hrec] at h
          obtain ⟨n'', ms'⟩ := r
          simp only [Option.some.injEq, Prod.mk.injEq] at h
          obtain ⟨rfl, rfl⟩ := h
          obtain ⟨h1, h2, h3, h4, h5, h6, h7⟩ := ih _ n'' ms' hrec
          refine ⟨h1, h2, h3, by simpa using Nat.le_trans (Nat.le_succ _) h4, ?_, ?_, ?_⟩
          · rw [List.filter_cons_of_pos (by simp; tauto)]
            simpa using h5
          · intro m hm
            rcases List.mem_cons.mp hm with rfl | hm
            · exact ⟨rfl, rfl, rfl, n.msg_ids + 1, rfl⟩
            · exact h6 m hm
          · intro e he
            rcases h7 e he with he' | he'
            · simp only [mapInsert, List.mem_cons] at he'
              rcases he' with rfl | he'
              · exact Or.inr rfl
              · exact Or.inl (List.mem_of_mem_filter he')
            · exact Or.inr he'

theorem forwardAll_some (msg : Msg) (k : Nat) (hk : msg.body.msg_id = some k) :
    ∀ (peers : List String) (n : Node), ∃ r, n.forwardAll msg peers = some r := by
  intro peers
  induction peers with
  | nil => intro n; exact ⟨(n, []), rfl⟩
  | cons peer rest ih =>
    intro n
    simp only [Node.forwardAll]
    by_cases hskip : peer = n.id ∨ peer = msg.src
    · rw [if_pos hskip]; exact ih n
    · rw [if_neg hskip, Node.rpc, hk]
      obtain ⟨⟨n'', ms⟩, hr⟩ := ih
        { n with pending := mapInsert k (peer, msg.body) n.pending,
                 msg_ids := n.msg_ids + 1 }
      simp only [Node.send, hr]
      exact ⟨_, rfl⟩

/-! ### Gossip-loop lemmas -/

theorem gossipGo_sound :
    ∀ (entries : List (Nat × String × Body)) (n n' : Node) (ms : List Msg),
      n.gossipGo entries = some (n', ms) →
      n'.id = n.id ∧ n'.nodes = n.nodes ∧ n'.messages = n.messages ∧
      n.msg_ids ≤ n'.msg_ids ∧
      List.Forall₂ (fun e m => m.src = n.id ∧ m.dest = e.2.1 ∧
        m.body.extra = e.2.2.extra ∧ m.body.in_reply_to = e.2.2.in_reply_to ∧
        ∃ j, m.body.msg_id = some j) entries ms ∧
      (∀ e ∈ n'.pending, e ∈ n.pending ∨ ∃ e' , e' ∈ entries ∧ e.2.2 = e'.2.2) := by
  intro entries
  induction entries with
  | nil =>
    intro n n' ms h
    simp only [Node.gossipGo, Option.some.injEq, Prod.mk.injEq] at h
    obtain ⟨rfl, rfl⟩ := h
    exact ⟨rfl, rfl, rfl, Nat.le_refl _, List.Forall₂.nil, fun e he => Or.inl he⟩
  | cons e0 rest ih =>
    intro n n' ms h
    obtain ⟨k0, dest, body⟩ := e0
    simp only [Node.gossipGo] at h
    cases hmi : body.msg_id with
    | none => rw [Node.rpc, hmi] at h; exact absurd h (by simp)
    | some k =>
      rw [Node.rpc, hmi] at h
      simp only [Node.send] at h
      cases hrec : Node.gossipGo
          { n with pending := mapInsert k (dest, body) n.pending,
                   msg_ids := n.msg_ids + 1 } rest with
      | none => rw [hrec] at h; exact absurd h (by simp)
      | some r =>
        rw [hrec] at h
        obtain ⟨n'', ms'⟩ := r
        simp only [Option.some.injEq, Prod.mk.injEq] at h
        obtain ⟨rfl, rfl⟩ := h
        obtain ⟨h1, h2, h3, h4, h5, h6⟩ := ih _ n'' ms' hrec
        refine ⟨h1, h2, h3, by simpa using Nat.le_trans (Nat.le_succ _) h4,
          List.Forall₂.cons ⟨rfl, rfl, rfl, rfl, n.msg_ids + 1, rfl⟩ h5, ?_⟩
        intro e he
        rcases h6 e he with he' | ⟨e', he1, he2⟩
        · simp only [mapInsert, List.mem_cons] at he'
          rcases he' with rfl | he'
          · exact Or.inr ⟨(k0, dest, body), List.mem_cons_self _ _, rfl⟩
          · exact Or.inl (List.mem_of_mem_filter he')
        · exact Or.inr ⟨e', List.mem_cons_of_mem _ he1, he2⟩

theorem gossipGo_spec :
    ∀ (entries : List (Nat × String × Body)) (n : Node),
      (∀ e ∈ entries, e.2.2.msg_id = some e.1) →
      (keysOf entries).Nodup →
      ∃ n' ms, n.gossipGo entries = some (n', ms) ∧
        (∀ e ∈ n.pending, e.1 ∉ keysOf entries → e ∈ n'.pending) ∧
        (∀ e ∈ entries, e ∈ n'.pending) := by
  intro entries
  induction entries with
  | nil =>
    intro n _ _
    exact ⟨n, [], rfl, fun e he _ => he, by simp⟩
  | cons e0 rest ih =>
    intro n hkeys hnd
    obtain ⟨k0, dest, body⟩ := e0
    have hmi : body.msg_id = some k0 := hkeys _ (List.mem_cons_self _ _)
    have hnd2 : (k0 :: keysOf rest).Nodup := by
      simpa only [keysOf, List.map_cons] using hnd
    have hnd' : (keysOf rest).Nodup := (List.nodup_cons.mp hnd2).2
    have hk0 : k0 ∉ keysOf rest := (List.nodup_cons.mp hnd2).1
    obtain ⟨n', ms', hrec, hd, he⟩ := ih
      { n with pending := mapInsert k0 (dest, body) n.pending,
               msg_ids := n.msg_ids + 1 }
      (fun e hm => hkeys e (List.mem_cons_of_mem _ hm)) hnd'
    refine ⟨n', ({ src := n.id, dest := dest,
                   body := { body with msg_id := some (n.msg_ids + 1) } } : Msg) :: ms',
      ?_, ?_, ?_⟩
    · simp only [Node.gossipGo, Node.rpc, hmi, Node.send, hrec]
    · intro e hep hnk
      simp only [keysOf, List.map_cons, List.mem_cons] at hnk
      push_neg at hnk
      refine hd e ?_ (by simpa [keysOf] using hnk.2)
      simp only [mapInsert, List.mem_cons]
      exact Or.inr (List.mem_filter.mpr ⟨hep, by simpa using hnk.1⟩)
    · intro e hem
      rcases List.mem_cons.mp hem with rfl | hem
      · exact hd _ (List.mem_cons_self _ _) hk0
      · exact he e hem

/-! ### Evaluation lemmas for `Node.handle` -/

theorem handle_broadcast_seen (n : Node) (msg : Msg) (v : Nat)
    (hx : msg.body.extra = Payload.Broadcast v) (hv : v ∈ n.messages) :
    n.handle msg = some ({ n with msg_ids := n.msg_ids + 1 },
      [{ src := n.id, dest := msg.src,
         body := { msg_id := some (n.msg_ids + 1), in_reply_to := msg.body.msg_id,
                   extra := Payload.BroadcastOk } }]) := by
  simp [Node.handle, Node.dispatch, hx, hv, Body.reply, Node.send]

theorem handle_broadcast_new (n : Node) (msg : Msg) (v : Nat) (nf : Node)
    (ms : List Msg) (hx : msg.body.extra = Payload.Broadcast v)
    (hv : v ∉ n.messages)
    (hf : Node.forwardAll { n with messages := v :: n.messages } msg n.nodes =
      some (nf, ms)) :
    n.handle msg = some ({ nf with msg_ids := nf.msg_ids + 1 },
      ms ++ [{ src := nf.id, dest := msg.src,
               body := { msg_id := some (nf.msg_ids + 1),
                         in_reply_to := msg.body.msg_id,
                         extra := Payload.BroadcastOk } }]) := by
  simp [Node.handle, Node.dispatch, hx, hv, hf, Body.reply, Node.send]

theorem handle_broadcast_new_fail (n : Node) (msg : Msg) (v : Nat)
    (hx : msg.body.extra = Payload.Broadcast v) (hv : v ∉ n.messages)
    (hf : Node.forwardAll { n with messages := v :: n.messages } msg n.nodes =
      none) :
    n.handle msg = none := by
  simp [Node.handle, Node.dispatch, hx, hv, hf]

theorem handle_broadcastOk_none (n : Node) (msg : Msg)
    (hx : msg.body.extra = Payload.BroadcastOk)
    (hr : msg.body.in_reply_to = none) :
    n.handle msg = none := by
  simp [Node.handle, Node.dispatch, hx, hr]

theorem handle_broadcastOk_some (n : Node) (msg : Msg) (k : Nat)
    (hx : msg.body.extra = Payload.BroadcastOk)
    (hr : msg.body.in_reply_to = some k) :
    n.handle msg = some ({ n with pending := eraseKey k n.pending }, []) := by
  simp [Node.handle, Node.dispatch, hx, hr, Body.reply]

theorem handle_generate (n : Node) (msg : Msg)
    (hx : msg.body.extra = Payload.Generate) :
    n.handle msg = some ({ n with msg_ids := n.msg_ids + 1 },
      [{ src := n.id, dest := msg.src,
         body := { msg_id := some (n.msg_ids + 1), in_reply_to := msg.body.msg_id,
                   extra := Payload.GenerateOk (mkId n.id n.msg_ids) } }]) := by
  simp [Node.handle, Node.dispatch, hx, Body.reply, Node.send]

theorem handle_read (n : Node) (msg : Msg)
    (hx : msg.body.extra = Payload.Read) :
    n.handle msg = some ({ n with msg_ids := n.msg_ids + 1 },
      [{ src := n.id, dest := msg.src,
         body := { msg_id := some (n.msg_ids + 1), in_reply_to := msg.body.msg_id,
                   extra := Payload.ReadOk n.messages } }]) := by
  simp [Node.handle, Node.dispatch, hx, Body.reply, Node.send]

theorem eraseKey_eq_self (k : Nat) (m : List (Nat × String × Body))
    (hk : k ∉ keysOf m) : eraseKey k m = m := by
  apply List.filter_eq_self.mpr
  intro p hp
  simp only [decide_eq_true_eq]
  intro hpk
  have : p.1 ∈ keysOf m := by
    simp only [keysOf]
    exact List.mem_map_of_mem (fun q => q.1) hp
  rw [hpk] at this
  exact hk this

theorem node_eta (n : Node) : { n with pending := n.pending } = n := rfl

/-! ### Per-step characterization -/

theorem forall2_mem_right {α β : Type} {R : α → β → Prop} :
    ∀ {l1 : List α} {l2 : List β}, List.Forall₂ R l1 l2 →
      ∀ b ∈ l2, ∃ a ∈ l1, R a b := by
  intro l1 l2 h
  induction h with
  | nil => simp
  | cons hR _ ih =>
    intro b hb
    rcases List.mem_cons.mp hb with rfl | hb
    · exact ⟨_, List.mem_cons_self _ _, hR⟩
    · obtain ⟨a, ha, hr⟩ := ih b hb
      exact ⟨a, List.mem_cons_of_mem _ ha, hr⟩

theorem forall2_mem_left {α β : Type} {R : α → β → Prop} :
    ∀ {l1 : List α} {l2 : List β}, List.Forall₂ R l1 l2 →
      ∀ a ∈ l1, ∃ b ∈ l2, R a b := by
  intro l1 l2 h
  induction h with
  | nil => simp
  | cons hR _ ih =>
    intro a ha
    rcases List.mem_cons.mp ha with rfl | ha
    · exact ⟨_, List.mem_cons_self _ _, hR⟩
    · obtain ⟨b, hb, hr⟩ := ih a ha
      exact ⟨b, List.mem_cons_of_mem _ hb, hr⟩

theorem genIds_append (a b : List Msg) :
    genIds (a ++ b) = genIds a ++ genIds b := by
  simp [genIds]

theorem genIds_nil (outs : List Msg)
    (h : ∀ m ∈ outs, ∀ s, m.body.extra ≠ Payload.GenerateOk s) :
    genIds outs = [] := by
  apply List.filterMap_eq_nil.mpr
  intro m hm
  cases hxx : m.body.extra with
  | GenerateOk s => exact absurd hxx (h m hm s)
  | _ => simp [hxx]

/-- One main-loop step preserves identity and peer list, only grows the
counter, changes the seen set exactly by the handled broadcast value (if
any), keeps the seen set duplicate-free, keeps all pending bodies broadcast
payloads, and emits a `generate_ok` id only for a `generate` request — in
which case the id is stamped from the pre-step counter, which the step then
outgrows. -/
theorem step_cases (n : Node) (e : Event) (n' : Node) (outs : List Msg)
    (hs : n.step e = some (n', outs)) :
    n'.id = n.id ∧ n'.nodes = n.nodes ∧ n.msg_ids ≤ n'.msg_ids ∧
    (∀ v : Nat, v ∈ n'.messages ↔ v ∈ n.messages ∨ evVal e = some v) ∧
    (n.messages.Nodup → n'.messages.Nodup) ∧
    (pendingBroadcast n → pendingBroadcast n') ∧
    (pendingBroadcast n →
      genIds outs = [] ∨
        (genIds outs = [mkId n.id n.msg_ids] ∧ n.msg_ids < n'.msg_ids)) := by
  cases e with
  | tick =>
    simp only [Node.step, Node.gossip] at hs
    obtain ⟨h1, h2, h3, h4, h5, h6⟩ := gossipGo_sound n.pending _ n' outs hs
    refine ⟨h1, h2, h4, ?_, ?_, ?_, ?_⟩
    · intro v; rw [h3]; simp [evVal]
    · intro h; rw [h3]; exact h
    · intro hp q hq
      rcases h6 q hq with hq' | ⟨e', he', hee⟩
      · simp at hq'
      · obtain ⟨v, hv⟩ := hp e' he'
        exact ⟨v, by rw [hee]; exact hv⟩
    · intro hp
      refine Or.inl (genIds_nil outs ?_)
      intro m hm s hx
      obtain ⟨a, ha, _, _, hext, _⟩ := forall2_mem_right h5 m hm
      obtain ⟨v, hv⟩ := hp a ha
      rw [hx, hv] at hext
      exact Payload.noConfusion hext
  | msg m =>
    simp only [Node.step] at hs
    cases hx : m.body.extra with
    | Broadcast v0 =>
      by_cases hv : v0 ∈ n.messages
      · rw [handle_broadcast_seen n m v0 hx hv] at hs
        simp only [Option.some.injEq, Prod.mk.injEq] at hs
        obtain ⟨h1, h2⟩ := hs
        subst h1; subst h2
        refine ⟨rfl, rfl, Nat.le_succ _, ?_, fun h => h, fun hp => hp,
          fun _ => Or.inl (by simp [genIds])⟩
        intro v
        simp only [evVal, hx]
        constructor
        · exact fun h => Or.inl h
        · rintro (h | h)
          · exact h
          · cases Option.some.inj h; exact hv
      · cases hf : Node.forwardAll { n with messages := v0 :: n.messages } m
            n.nodes with
        | none =>
          rw [handle_broadcast_new_fail n m v0 hx hv hf] at hs
          exact absurd hs (by simp)
        | some r =>
          obtain ⟨nf, ms⟩ := r
          rw [handle_broadcast_new n m v0 nf ms hx hv hf] at hs
          simp only [Option.some.injEq, Prod.mk.injEq] at hs
          obtain ⟨h1, h2⟩ := hs
          obtain ⟨g1, g2, g3, g4, g5, g6, g7⟩ :=
            forwardAll_sound m n.nodes _ nf ms hf
          subst h1; subst h2
          refine ⟨g1, g2, by simp at g4 ⊢; omega, ?_, ?_, ?_, ?_⟩
          · intro v
            simp only [evVal, hx]
            rw [show ({ nf with msg_ids := nf.msg_ids + 1 } : Node).messages =
              nf.messages from rfl, g3]
            simp only [List.mem_cons, Option.some.injEq]
            constructor
            · rintro (rfl | h)
              · exact Or.inr rfl
              · exact Or.inl h
            · rintro (h | rfl)
              · exact Or.inr h
              · exact Or.inl rfl
          · intro h
            rw [show ({ nf with msg_ids := nf.msg_ids + 1 } : Node).messages =
              nf.messages from rfl, g3]
            exact List.nodup_cons.mpr ⟨hv, h⟩
          · intro hp q hq
            rcases g7 q hq with hq' | hq'
            · exact hp q hq'
            · exact ⟨v0, by rw [hq', hx]⟩
          · intro _
            refine Or.inl ?_
            rw [genIds_append]
            have hm1 : genIds ms = [] := by
              apply genIds_nil
              intro mm hmm s hxs
              obtain ⟨_, hext, _⟩ := g6 mm hmm
              rw [hxs, hx] at hext
              exact Payload.noConfusion hext
            rw [hm1]
            simp [genIds]
    | BroadcastOk =>
      cases hr : m.body.in_reply_to with
      | none =>
        rw [handle_broadcastOk_none n m hx hr] at hs
        exact absurd hs (by simp)
      | some k =>
        rw [handle_broadcastOk_some n m k hx hr] at hs
        simp only [Option.some.injEq, Prod.mk.injEq] at hs
        obtain ⟨h1, h2⟩ := hs
        subst h1; subst h2
        refine ⟨rfl, rfl, Nat.le_refl _, fun v => by simp [evVal, hx],
          fun h => h, ?_, fun _ => Or.inl (by simp [genIds])⟩
        intro hp q hq
        exact hp q (List.mem_of_mem_filter hq)
    | Echo s =>
      simp only [Node.handle, Node.dispatch, Body.reply, Node.send, hx,
        Option.some.injEq, Prod.mk.injEq] at hs
      obtain ⟨h1, h2⟩ := hs
      subst h1; subst h2
      exact ⟨rfl, rfl, Nat.le_succ _, fun v => by simp [evVal, hx], fun h => h,
        fun hp => hp, fun _ => Or.inl (by simp [genIds])⟩
    | EchoOk s =>
      simp only [Node.handle, Node.dispatch, Body.reply, Node.send, hx,
        Option.some.injEq, Prod.mk.injEq] at hs
      obtain ⟨h1, h2⟩ := hs
      subst h1; subst h2
      exact ⟨rfl, rfl, Nat.le_refl _, fun v => by simp [evVal, hx], fun h => h,
        fun hp => hp, fun _ => Or.inl (by simp [genIds])⟩
    | Init a b =>
      simp only [Node.handle, Node.dispatch, Body.reply, Node.send, hx,
        Option.some.injEq, Prod.mk.injEq] at hs
      obtain ⟨h1, h2⟩ := hs
      subst h1; subst h2
      exact ⟨rfl, rfl, Nat.le_succ _, fun v => by simp [evVal, hx], fun h => h,
        fun hp => hp, fun _ => Or.inl (by simp [genIds])⟩
    | InitOk =>
      simp only [Node.handle, Node.dispatch, Body.reply, Node.send, hx,
        Option.some.injEq, Prod.mk.injEq] at hs
      obtain ⟨h1, h2⟩ := hs
      subst h1; subst h2
      exact ⟨rfl, rfl, Nat.le_refl _, fun v => by simp [evVal, hx], fun h => h,
        fun hp => hp, fun _ => Or.inl (by simp [genIds])⟩
    | Generate =>
      rw [handle_generate n m hx] at hs
      simp only [Option.some.injEq, Prod.mk.injEq] at hs
      obtain ⟨h1, h2⟩ := hs
      subst h1; subst h2
      exact ⟨rfl, rfl, Nat.le_succ _, fun v => by simp [evVal, hx], fun h => h,
        fun hp => hp, fun _ => Or.inr ⟨by simp [genIds], Nat.lt_succ_self _⟩⟩
    | GenerateOk s =>
      simp only [Node.handle, Node.dispatch, Body.reply, Node.send, hx,
        Option.some.injEq, Prod.mk.injEq] at hs
      obtain ⟨h1, h2⟩ := hs
      subst h1; subst h2
      exact ⟨rfl, rfl, Nat.le_refl _, fun v => by simp [evVal, hx], fun h => h,
        fun hp => hp, fun _ => Or.inl (by simp [genIds])⟩
    | Read =>
      rw [handle_read n m hx] at hs
      simp only [Option.some.injEq, Prod.mk.injEq] at hs
      obtain ⟨h1, h2⟩ := hs
      subst h1; subst h2
      exact ⟨rfl, rfl, Nat.le_succ _, fun v => by simp [evVal, hx], fun h => h,
        fun hp => hp, fun _ => Or.inl (by simp [genIds])⟩
    | ReadOk l =>
      simp only [Node.handle, Node.dispatch, Body.reply, Node.send, hx,
        Option.some.injEq, Prod.mk.injEq] at hs
      obtain ⟨h1, h2⟩ := hs
      subst h1; subst h2
      exact ⟨rfl, rfl, Nat.le_refl _, fun v => by simp [evVal, hx], fun h => h,
        fun hp => hp, fun _ => Or.inl (by simp [genIds])⟩
    | Topology t =>
      simp only [Node.handle, Node.dispatch, Body.reply, Node.send, hx,
        Option.some.injEq, Prod.mk.injEq] at hs
      obtain ⟨h1, h2⟩ := hs
      subst h1; subst h2
      exact ⟨rfl, rfl, Nat.le_succ _, fun v => by simp [evVal, hx], fun h => h,
        fun hp => hp, fun _ => Or.inl (by simp [genIds])⟩
    | TopologyOk =>
      simp only [Node.handle, Node.dispatch, Body.reply, Node.send, hx,
        Option.some.injEq, Prod.mk.injEq] at hs
      obtain ⟨h1, h2⟩ := hs
      subst h1; subst h2
      exact ⟨rfl, rfl, Nat.le_refl _, fun v => by simp [evVal, hx], fun h => h,
        fun hp => hp, fun _ => Or.inl (by simp [genIds])⟩

/-! ### Trace-level lemmas -/

theorem mem_bvals_cons (v : Nat) (e : Event) (es : List Event) :
    v ∈ bvals (e :: es) ↔ evVal e = some v ∨ v ∈ bvals es := by
  cases hev : evVal e <;>
    simp [bvals, List.filterMap_cons, hev, eq_comm]

theorem run_cases (evs : List Event) :
    ∀ (n n' : Node) (outs : List Msg), n.run evs = some (n', outs) →
      n'.id = n.id ∧ n.msg_ids ≤ n'.msg_ids ∧
      (∀ v : Nat, v ∈ n'.messages ↔ v ∈ n.messages ∨ v ∈ bvals evs) ∧
      (n.messages.Nodup → n'.messages.Nodup) ∧
      (pendingBroadcast n → pendingBroadcast n') := by
  induction evs with
  | nil =>
    intro n n' outs h
    simp only [Node.run, Option.some.injEq, Prod.mk.injEq] at h
    obtain ⟨h1, h2⟩ := h
    subst h1
    exact ⟨rfl, Nat.le_refl _, fun v => by simp [bvals], fun h => h, fun hp => hp⟩
  | cons e es ih =>
    intro n n' outs h
    cases hst : n.step e with
    | none => simp [Node.run, hst] at h
    | some r =>
      obtain ⟨n1, outs1⟩ := r
      cases hrn : n1.run es with
      | none => simp [Node.run, hst, hrn] at h
      | some r2 =>
        obtain ⟨n2, outs2⟩ := r2
        simp only [Node.run, hst, hrn, Option.some.injEq, Prod.mk.injEq] at h
        obtain ⟨h1, h2⟩ := h
        subst h1; subst h2
        obtain ⟨s1, _, s3, s4, s5, s6, _⟩ := step_cases n e n1 outs1 hst
        obtain ⟨r1, r2, r3, r4, r5⟩ := ih n1 n2 outs2 hrn
        refine ⟨by rw [r1, s1], Nat.le_trans s3 r2, ?_, fun h => r4 (s5 h),
          fun hp => r5 (s6 hp)⟩
        intro v
        rw [r3 v, s4 v, mem_bvals_cons]
        tauto

theorem run_genIds (evs : List Event) :
    ∀ (n n' : Node) (outs : List Msg), n.run evs = some (n', outs) →
      pendingBroadcast n →
      ∃ cs : List Nat, genIds outs = cs.map (mkId n.id) ∧
        cs.Pairwise (fun a b => a < b) ∧
        ∀ c ∈ cs, n.msg_ids ≤ c ∧ c < n'.msg_ids := by
  induction evs with
  | nil =>
    intro n n' outs h _
    simp only [Node.run, Option.some.injEq, Prod.mk.injEq] at h
    obtain ⟨h1, h2⟩ := h
    subst h1; subst h2
    exact ⟨[], by simp [genIds], List.Pairwise.nil, by simp⟩
  | cons e es ih =>
    intro n n' outs h hp
    cases hst : n.step e with
    | none => simp [Node.run, hst] at h
    | some r =>
      obtain ⟨n1, outs1⟩ := r
      cases hrn : n1.run es with
      | none => simp [Node.run, hst, hrn] at h
      | some r2 =>
        obtain ⟨n2, outs2⟩ := r2
        simp only [Node.run, hst, hrn, Option.some.injEq, Prod.mk.injEq] at h
        obtain ⟨h1, h2⟩ := h
        subst h1; subst h2
        obtain ⟨s1, _, s3, _, _, s6, s7⟩ := step_cases n e n1 outs1 hst
        obtain ⟨_, rmono, _, _, _⟩ := run_cases es n1 n2 outs2 hrn
        obtain ⟨cs, hc1, hc2, hc3⟩ := ih n1 n2 outs2 hrn (s6 hp)
        rcases s7 hp with hg | ⟨hg, hlt⟩
        · refine ⟨cs, ?_, hc2, ?_⟩
          · rw [genIds_append, hg, List.nil_append, hc1, s1]
          · intro c hc
            exact ⟨Nat.le_trans s3 (hc3 c hc).1, (hc3 c hc).2⟩
        · refine ⟨n.msg_ids :: cs, ?_, ?_, ?_⟩
          · rw [genIds_append, hg, hc1, s1]
            rfl
          · refine List.pairwise_cons.mpr ⟨?_, hc2⟩
            intro c hc
            exact Nat.lt_of_lt_of_le hlt (hc3 c hc).1
          · intro c hc
            rcases List.mem_cons.mp hc with rfl | hc
            · exact ⟨Nat.le_refl _, Nat.lt_of_lt_of_le hlt rmono⟩
            · exact ⟨Nat.le_trans (Nat.le_of_lt hlt) (hc3 c hc).1, (hc3 c hc).2⟩

/-! ### Propagation output characterization for broadcast handling -/

theorem handle_broadcast_props (n : Node) (msg : Msg) (v : Nat) (n' : Node)
    (outs : List Msg) (hx : msg.body.extra = Payload.Broadcast v)
    (hv : v ∉ n.messages) (hs : n.handle msg = some (n', outs)) :
    (propOuts outs).map (fun m => m.dest) =
      n.nodes.filter (fun p => !(decide (p = n.id ∨ p = msg.src))) ∧
    ∀ m ∈ propOuts outs, m.body.extra = Payload.Broadcast v := by
  cases hf : Node.forwardAll { n with messages := v :: n.messages } msg
      n.nodes with
  | none =>
    rw [handle_broadcast_new_fail n msg v hx hv hf] at hs
    exact absurd hs (by simp)
  | some r =>
    obtain ⟨nf, ms⟩ := r
    rw [handle_broadcast_new n msg v nf ms hx hv hf] at hs
    simp only [Option.some.injEq, Prod.mk.injEq] at hs
    obtain ⟨h1, h2⟩ := hs
    subst h1; subst h2
    obtain ⟨g1, g2, g3, g4, g5, g6, g7⟩ := forwardAll_sound msg n.nodes _ nf ms hf
    have hms : ∀ m ∈ ms, m.body.extra = Payload.Broadcast v := by
      intro m hm
      rw [(g6 m hm).2.1, hx]
    have hpo : propOuts (ms ++ [{ src := nf.id, dest := msg.src,
                                  body := { msg_id := some (nf.msg_ids + 1),
                                            in_reply_to := msg.body.msg_id,
                                            extra := Payload.BroadcastOk } }]) =
        ms := by
      rw [propOuts, List.filter_append]
      have e1 : List.filter (fun m => match m.body.extra with
          | Payload.Broadcast _ => true
          | _ => false) ms = ms := by
        apply List.filter_eq_self.mpr
        intro m hm
        rw [hms m hm]
      rw [e1]
      simp
    rw [hpo]
    exact ⟨g5, hms⟩

theorem handle_broadcast_seen_props (n : Node) (msg : Msg) (v : Nat)
    (n' : Node) (outs : List Msg) (hx : msg.body.extra = Payload.Broadcast v)
    (hv : v ∈ n.messages) (hs : n.handle msg = some (n', outs)) :
    propOuts outs = [] := by
  rw [handle_broadcast_seen n msg v hx hv] at hs
  simp only [Option.some.injEq, Prod.mk.injEq] at hs
  obtain ⟨h1, h2⟩ := hs
  subst h1; subst h2
  simp [propOuts]

/-! ### Claim theorems -/

/-- A node that has already completed bootstrap (`init_ok` consumed one
message id), about to handle its first broadcast. -/
def c1Node : Node :=
  { id := "n1", nodes := ["n1", "n2"], msg_ids := 1, messages := [],
    pending := [] }

/-- A `broadcast{message: 5}` from the harness client `c0`, stamped
`msg_id = 1` by the sender. -/
def c1Msg : Msg :=
  { src := "c0", dest := "n1",
    body := { msg_id := some 1, in_reply_to := none,
              extra := Payload.Broadcast 5 } }

/-- C1: the claim fails on the code. Handling `c1Msg` stores the pending
entry under key 1 (the *inbound* body's `msg_id`) while the propagation
actually sent to `n2` is stamped `msg_id = 2`; the subsequent gossip retry
re-sends with a fresh `msg_id = 4` yet keeps the entry keyed 1. So the
pending key matches neither the initial attempt's wire id nor the retry's,
and retries never re-key. -/
theorem c1_pending_key_not_wire_id :
    ((Node.handle c1Node c1Msg).map
        (fun r => (keysOf r.1.pending,
          (propOuts r.2).map (fun m => m.body.msg_id))) =
      some ([1], [some 2])) ∧
    (((Node.handle c1Node c1Msg).bind (fun r => r.1.gossip)).map
        (fun r => (keysOf r.1.pending, r.2.map (fun m => m.body.msg_id))) =
      some ([1], [some 4])) ∧
    (1 : Nat) ≠ 2 ∧ (1 : Nat) ≠ 4 := by decide

/-- C5 counterexample: a `broadcast` request carrying no `msg_id`, for a
value not yet seen and with an eligible peer to forward to, makes
`Node::rpc` unwrap `None` — the handler panics and *no* `broadcast_ok`
reply is produced, refuting "always produces a broadcast_ok reply". -/
def c5Node : Node :=
  { id := "n1", nodes := ["n1", "n2"], msg_ids := 1, messages := [],
    pending := [] }

/-- A `broadcast{message: 7}` request with no `msg_id`. -/
def c5Msg : Msg :=
  { src := "c2", dest := "n1",
    body := { msg_id := none, in_reply_to := none,
              extra := Payload.Broadcast 7 } }

/-- C5: as stated the claim is false — handling this broadcast request
produces no reply at all (the handler panics on `body.msg_id.unwrap()`
while forwarding). -/
theorem c5_counterexample_missing_msg_id :
    Node.handle c5Node c5Msg = none := by decide

/-- C5 (amended): handling any `broadcast{message}` request that carries a
`msg_id` always produces a `broadcast_ok` reply addressed back to the
sender, echoing that `msg_id` in `in_reply_to`, whether or not the value
was already in the seen set. -/
theorem c5_broadcast_ok_always_replied (n : Node) (msg : Msg) (v : Nat)
    (k : Nat) (hx : msg.body.extra = Payload.Broadcast v)
    (hk : msg.body.msg_id = some k) :
    ∃ n' ms ack, n.handle msg = some (n', ms ++ [ack]) ∧
      ack.src = n.id ∧ ack.dest = msg.src ∧
      ack.body.extra = Payload.BroadcastOk ∧
      ack.body.in_reply_to = some k := by
  by_cases hv : v ∈ n.messages
  · refine ⟨{ n with msg_ids := n.msg_ids + 1 }, [],
      { src := n.id, dest := msg.src,
        body := { msg_id := some (n.msg_ids + 1),
                  in_reply_to := msg.body.msg_id,
                  extra := Payload.BroadcastOk } }, ?_, rfl, rfl, rfl, hk⟩
    rw [List.nil_append]
    exact handle_broadcast_seen n msg v hx hv
  · obtain ⟨⟨nf, ms⟩, hf⟩ :=
      forwardAll_some msg k hk n.nodes { n with messages := v :: n.messages }
    obtain ⟨g1, _, _, _, _, _, _⟩ := forwardAll_sound msg n.nodes _ nf ms hf
    refine ⟨_, ms, _, handle_broadcast_new n msg v nf ms hx hv hf, g1, rfl,
      rfl, ?_⟩
    exact hk

/-- C5 witness: a fresh post-bootstrap node handling `broadcast{5}` with
`msg_id = 1`. -/
theorem c5_broadcast_ok_always_replied_witness :
    ∃ n' ms ack, Node.handle c5Node c1Msg = some (n', ms ++ [ack]) ∧
      ack.src = c5Node.id ∧ ack.dest = c1Msg.src ∧
      ack.body.extra = Payload.BroadcastOk ∧
      ack.body.in_reply_to = some 1 :=
  c5_broadcast_ok_always_replied c5Node c1Msg 5 1 rfl rfl

/-- C7: on a gossip tick, every stored pending entry is re-sent to the same
destination with the same body (payload and `in_reply_to` unchanged, only
the wire `msg_id` freshly stamped) and is recorded as pending again.
The two hypotheses hold in every reachable state: entries are inserted
keyed by their body's `msg_id`, and a map's keys are distinct. -/
theorem c7_gossip_resends_all_pending (n : Node)
    (hkeys : ∀ e ∈ n.pending, e.2.2.msg_id = some e.1)
    (hnd : (keysOf n.pending).Nodup) :
    ∃ n' ms, n.gossip = some (n', ms) ∧
      ∀ e ∈ n.pending, e ∈ n'.pending ∧
        ∃ m ∈ ms, m.dest = e.2.1 ∧ m.body.extra = e.2.2.extra ∧
          m.body.in_reply_to = e.2.2.in_reply_to ∧
          ∃ j, m.body.msg_id = some j := by
  obtain ⟨n', ms, hgo, _, hmem⟩ :=
    gossipGo_spec n.pending { n with pending := [] } hkeys hnd
  obtain ⟨_, _, _, _, hfa, _⟩ := gossipGo_sound n.pending _ n' ms hgo
  refine ⟨n', ms, hgo, ?_⟩
  intro e he
  refine ⟨hmem e he, ?_⟩
  obtain ⟨m, hm, _, h2, h3, h4, h5⟩ := forall2_mem_left hfa e he
  exact ⟨m, hm, h2, h3, h4, h5⟩

/-- A node with one outstanding pending propagation, keyed by its body's
`msg_id`. -/
def c7Node : Node :=
  { id := "n1", nodes := ["n1", "n2"], msg_ids := 5, messages := [7],
    pending := [(3, "n2", { msg_id := some 3, in_reply_to := none,
                            extra := Payload.Broadcast 7 })] }

/-- C7 witness: the gossip tick re-sends `c7Node`'s single pending entry. -/
theorem c7_gossip_resends_all_pending_witness :
    ∃ n' ms, c7Node.gossip = some (n', ms) ∧
      ∀ e ∈ c7Node.pending, e ∈ n'.pending ∧
        ∃ m ∈ ms, m.dest = e.2.1 ∧ m.body.extra = e.2.2.extra ∧
          m.body.in_reply_to = e.2.2.in_reply_to ∧
          ∃ j, m.body.msg_id = some j :=
  c7_gossip_resends_all_pending c7Node (by decide) (by decide)

/-- C9: if the first inbound message is not `init`, bootstrap fails fatally
(the process panics before ever entering the main loop, modelled by
`none`); if it is `init{node_id, node_ids}`, the node is created with that
identity and peer list and an `init_ok` reply is sent back to the sender. -/
theorem c9_bootstrap_requires_init (msg : Msg) :
    ((∀ nid ns, msg.body.extra ≠ Payload.Init nid ns) →
      bootstrap msg = none) ∧
    (∀ nid ns, msg.body.extra = Payload.Init nid ns →
      ∃ n out, bootstrap msg = some (n, out) ∧ n.id = nid ∧ n.nodes = ns ∧
        n.messages = [] ∧ n.pending = [] ∧ out.src = nid ∧
        out.dest = msg.src ∧ out.body.extra = Payload.InitOk ∧
        out.body.in_reply_to = msg.body.msg_id) := by
  constructor
  · intro hni
    cases hx : msg.body.extra
    case Init a b => exact absurd hx (hni a b)
    all_goals simp [bootstrap, hx]
  · intro nid ns hx
    have hb : bootstrap msg = some
        ({ id := nid, nodes := ns, msg_ids := 1, messages := [],
           pending := [] },
         { src := nid, dest := msg.src,
           body := { msg_id := some 1, in_reply_to := msg.body.msg_id,
                     extra := Payload.InitOk } }) := by
      simp [bootstrap, hx, Body.reply, Node.send, Node.new]
    exact ⟨_, _, hb, rfl, rfl, rfl, rfl, rfl, rfl, rfl, rfl⟩

/-- A well-formed `init` message from the harness. -/
def c9Msg : Msg :=
  { src := "c0", dest := "n1",
    body := { msg_id := some 1, in_reply_to := none,
              extra := Payload.Init "n1" ["n1", "n2", "n3"] } }

/-- C9 witness: bootstrapping on a concrete `init` message. -/
theorem c9_bootstrap_requires_init_witness :
    ∃ n out, bootstrap c9Msg = some (n, out) ∧ n.id = "n1" ∧
      n.nodes = ["n1", "n2", "n3"] ∧ n.messages = [] ∧ n.pending = [] ∧
      out.src = "n1" ∧ out.dest = c9Msg.src ∧
      out.body.extra = Payload.InitOk ∧
      out.body.in_reply_to = c9Msg.body.msg_id :=
  (c9_bootstrap_requires_init c9Msg).2 "n1" ["n1", "n2", "n3"] rfl

/-- C10: an inbound `broadcast_ok` with no `in_reply_to` panics (the code
unwraps `None`), modelled by `handle` returning `none`; a `broadcast_ok`
whose `in_reply_to` matches no pending key is silently ignored — the node
state is unchanged and nothing is sent. -/
theorem c10_broadcast_ok_unwrap_panics (n : Node) (msg : Msg)
    (hx : msg.body.extra = Payload.BroadcastOk) :
    (msg.body.in_reply_to = none → n.handle msg = none) ∧
    (∀ k, msg.body.in_reply_to = some k → k ∉ keysOf n.pending →
      n.handle msg = some (n, [])) := by
  constructor
  · intro hr
    exact handle_broadcastOk_none n msg hx hr
  · intro k hr hk
    rw [handle_broadcastOk_some n msg k hx hr, eraseKey_eq_self k n.pending hk]

/-- A `broadcast_ok` with no `in_reply_to`. -/
def c10MsgNone : Msg :=
  { src := "n2", dest := "n1",
    body := { msg_id := some 9, in_reply_to := none,
              extra := Payload.BroadcastOk } }

/-- A `broadcast_ok` whose `in_reply_to` (42) matches no pending key. -/
def c10MsgStale : Msg :=
  { src := "n2", dest := "n1",
    body := { msg_id := some 9, in_reply_to := some 42,
              extra := Payload.BroadcastOk } }

/-- C10 witness: both behaviors on the concrete node `c7Node` (whose only
pending key is 3). -/
theorem c10_broadcast_ok_unwrap_panics_witness :
    c7Node.handle c10MsgNone = none ∧
    c7Node.handle c10MsgStale = some (c7Node, []) :=
  ⟨(c10_broadcast_ok_unwrap_panics c7Node c10MsgNone rfl).1 rfl,
   (c10_broadcast_ok_unwrap_panics c7Node c10MsgStale rfl).2 42 rfl
     (by decide)⟩

/-- C3: the first time a broadcast value is observed, handling it initiates
exactly one propagation attempt to every peer in the peer list other than
the node itself and the immediate sender (and none to self, the sender, or
non-peers); if the value was already seen, no propagation is initiated. -/
theorem c3_first_broadcast_floods_once (n : Node) (msg : Msg) (v : Nat)
    (n' : Node) (outs : List Msg)
    (hx : msg.body.extra = Payload.Broadcast v) (hnd : n.nodes.Nodup)
    (hs : n.handle msg = some (n', outs)) :
    (v ∉ n.messages →
      (∀ p, p ∈ n.nodes → p ≠ n.id → p ≠ msg.src →
        ((propOuts outs).map (fun m => m.dest)).count p = 1) ∧
      (∀ p, (p = n.id ∨ p = msg.src) →
        ((propOuts outs).map (fun m => m.dest)).count p = 0) ∧
      (∀ p, p ∉ n.nodes →
        ((propOuts outs).map (fun m => m.dest)).count p = 0) ∧
      (∀ m ∈ propOuts outs, m.body.extra = Payload.Broadcast v)) ∧
    (v ∈ n.messages → propOuts outs = []) := by
  constructor
  · intro hv
    obtain ⟨hmap, hext⟩ := handle_broadcast_props n msg v n' outs hx hv hs
    refine ⟨?_, ?_, ?_, hext⟩
    · intro p hp hp1 hp2
      rw [hmap, List.count_filter (by simp [hp1, hp2])]
      exact List.count_eq_one_of_mem hnd hp
    · intro p hp
      rw [hmap]
      apply List.count_eq_zero_of_not_mem
      intro hmem
      have h2 := List.of_mem_filter hmem
      simp only [Bool.not_eq_eq_eq_not, Bool.not_true, decide_eq_false_iff_not] at h2
      exact h2 hp
    · intro p hp
      rw [hmap]
      apply List.count_eq_zero_of_not_mem
      intro hmem
      exact hp (List.mem_of_mem_filter hmem)
  · intro hv
    exact handle_broadcast_seen_props n msg v n' outs hx hv hs

/-- The node of the §8.6 scenario: `n1` with peers `[n1, n2, n3]`. -/
def c3Node : Node := Node.new "n1" ["n1", "n2", "n3"]

/-- A `broadcast{message: 5}` from the harness, `msg_id = 1`. -/
def c3Msg : Msg :=
  { src := "c0", dest := "n1",
    body := { msg_id := some 1, in_reply_to := none,
              extra := Payload.Broadcast 5 } }

/-- The node state after `c3Node` handles `c3Msg`. -/
def c3NodeAfter : Node :=
  { id := "n1", nodes := ["n1", "n2", "n3"], msg_ids := 3, messages := [5],
    pending := [(1, "n3", { msg_id := some 1, in_reply_to := none,
                            extra := Payload.Broadcast 5 })] }

/-- The outbound messages produced by `c3Node` handling `c3Msg`. -/
def c3Outs : List Msg :=
  [{ src := "n1", dest := "n2",
     body := { msg_id := some 1, in_reply_to := none,
               extra := Payload.Broadcast 5 } },
   { src := "n1", dest := "n3",
     body := { msg_id := some 2, in_reply_to := none,
               extra := Payload.Broadcast 5 } },
   { src := "n1", dest := "c0",
     body := { msg_id := some 3, in_reply_to := some 1,
               extra := Payload.BroadcastOk } }]

/-- C3 witness: the §8.6 scenario. -/
theorem c3_first_broadcast_floods_once_witness :
    (5 ∉ c3Node.messages →
      (∀ p, p ∈ c3Node.nodes → p ≠ c3Node.id → p ≠ c3Msg.src →
        ((propOuts c3Outs).map (fun m => m.dest)).count p = 1) ∧
      (∀ p, (p = c3Node.id ∨ p = c3Msg.src) →
        ((propOuts c3Outs).map (fun m => m.dest)).count p = 0) ∧
      (∀ p, p ∉ c3Node.nodes →
        ((propOuts c3Outs).map (fun m => m.dest)).count p = 0) ∧
      (∀ m ∈ propOuts c3Outs, m.body.extra = Payload.Broadcast 5)) ∧
    (5 ∈ c3Node.messages → propOuts c3Outs = []) :=
  c3_first_broadcast_floods_once c3Node c3Msg 5 c3NodeAfter c3Outs rfl
    (by decide) (by decide)

/-- C4: handling a broadcast never produces a propagation addressed to the
message's immediate sender or to the node's own id. -/
theorem c4_no_self_or_source_forward (n : Node) (msg : Msg) (v : Nat)
    (n' : Node) (outs : List Msg) (hx : msg.body.extra = Payload.Broadcast v)
    (hs : n.handle msg = some (n', outs)) :
    ∀ m ∈ propOuts outs, m.dest ≠ msg.src ∧ m.dest ≠ n.id := by
  by_cases hv : v ∈ n.messages
  · rw [handle_broadcast_seen_props n msg v n' outs hx hv hs]
    simp
  · obtain ⟨hmap, _⟩ := handle_broadcast_props n msg v n' outs hx hv hs
    intro m hm
    have hmem : m.dest ∈ (propOuts outs).map (fun mm => mm.dest) :=
      List.mem_map_of_mem _ hm
    rw [hmap] at hmem
    have h2 := List.of_mem_filter hmem
    simp only [Bool.not_eq_eq_eq_not, Bool.not_true, decide_eq_false_iff_not] at h2
    exact ⟨fun hc => h2 (Or.inr hc), fun hc => h2 (Or.inl hc)⟩

/-- The first propagation emitted in the §8.6 scenario. -/
def c4Prop : Msg :=
  { src := "n1", dest := "n2",
    body := { msg_id := some 1, in_reply_to := none,
              extra := Payload.Broadcast 5 } }

/-- C4 witness: in the §8.6 scenario the propagation to `n2` goes neither
to the sender `c0` nor to the node itself. -/
theorem c4_no_self_or_source_forward_witness :
    c4Prop.dest ≠ c3Msg.src ∧ c4Prop.dest ≠ c3Node.id :=
  c4_no_self_or_source_forward c3Node c3Msg 5 c3NodeAfter c3Outs rfl
    (by decide) c4Prop (by decide)

/-- C6: over any successful main-loop step, the seen set is append-only
(every prior member is still a member), and a value can only become a
member through a `broadcast` message for that very value — whose handling
already emitted, within the same atomic step, the propagation attempts to
every peer other than the node itself and that message's sender. -/
theorem c6_seen_set_append_only (n : Node) (e : Event) (n' : Node)
    (outs : List Msg) (hs : n.step e = some (n', outs)) :
    (∀ v ∈ n.messages, v ∈ n'.messages) ∧
    (∀ v : Nat, v ∈ n'.messages → v ∉ n.messages →
      ∃ m, e = Event.msg m ∧ m.body.extra = Payload.Broadcast v ∧
        (propOuts outs).map (fun mm => mm.dest) =
          n.nodes.filter (fun p => !(decide (p = n.id ∨ p = m.src))) ∧
        ∀ mm ∈ propOuts outs, mm.body.extra = Payload.Broadcast v) := by
  obtain ⟨_, _, _, s4, _, _, _⟩ := step_cases n e n' outs hs
  constructor
  · intro v hv
    exact (s4 v).mpr (Or.inl hv)
  · intro v hv hnv
    rcases (s4 v).mp hv with h | h
    · exact absurd h hnv
    · cases e with
      | tick => simp [evVal] at h
      | msg m =>
        have hs' : n.handle m = some (n', outs) := hs
        cases hx : m.body.extra
        case Broadcast w =>
          have hw : w = v := by simpa [evVal, hx] using h
          subst hw
          have hprops := handle_broadcast_props n m w n' outs hx hnv hs'
          exact ⟨m, rfl, hx, hprops.1, hprops.2⟩
        all_goals simp [evVal, hx] at h

/-- C6 witness: the §8.6 scenario as a single step. -/
theorem c6_seen_set_append_only_witness :
    (∀ v ∈ c3Node.messages, v ∈ c3NodeAfter.messages) ∧
    (∀ v : Nat, v ∈ c3NodeAfter.messages → v ∉ c3Node.messages →
      ∃ m, Event.msg c3Msg = Event.msg m ∧
        m.body.extra = Payload.Broadcast v ∧
        (propOuts c3Outs).map (fun mm => mm.dest) =
          c3Node.nodes.filter
            (fun p => !(decide (p = c3Node.id ∨ p = m.src))) ∧
        ∀ mm ∈ propOuts c3Outs, mm.body.extra = Payload.Broadcast v) :=
  c6_seen_set_append_only c3Node (Event.msg c3Msg) c3NodeAfter c3Outs
    (by decide)

/-- C2: after any successfully handled event sequence (broadcasts repeated
arbitrarily, interleaved with any other message kinds and gossip ticks),
a `read` request is answered with a `read_ok` whose `messages` list has no
duplicates and contains exactly the distinct values that appeared in
`broadcast` messages, independent of order and repetition. -/
theorem c2_read_reflects_distinct_broadcasts (n0 n1 : Node)
    (evs : List Event) (outs : List Msg) (msg : Msg)
    (h0 : n0.messages = []) (hrun : n0.run evs = some (n1, outs))
    (hx : msg.body.extra = Payload.Read) :
    ∃ n2 l, n1.handle msg = some (n2,
        [{ src := n1.id, dest := msg.src,
           body := { msg_id := some (n1.msg_ids + 1),
                     in_reply_to := msg.body.msg_id,
                     extra := Payload.ReadOk l } }]) ∧
      l.Nodup ∧ (∀ v : Nat, v ∈ l ↔ v ∈ bvals evs) := by
  obtain ⟨_, _, r3, r4, _⟩ := run_cases evs n0 n1 outs hrun
  refine ⟨_, n1.messages, handle_read n1 msg hx, ?_, ?_⟩
  · apply r4
    rw [h0]
    exact List.nodup_nil
  · intro v
    rw [r3 v, h0]
    simp

/-- Event list for the C2 witness: the same value broadcast twice. -/
def c2Evs : List Event :=
  [Event.msg { src := "c0", dest := "n1",
               body := { msg_id := some 1, in_reply_to := none,
                         extra := Payload.Broadcast 5 } },
   Event.msg { src := "c0", dest := "n1",
               body := { msg_id := some 2, in_reply_to := none,
                         extra := Payload.Broadcast 5 } }]

/-- Node state after running `c2Evs` from a fresh `n1`. -/
def c2N1 : Node :=
  { id := "n1", nodes := ["n1", "n2"], msg_ids := 3, messages := [5],
    pending := [(1, "n2", { msg_id := some 1, in_reply_to := none,
                            extra := Payload.Broadcast 5 })] }

/-- Outbound messages produced while running `c2Evs`. -/
def c2Outs : List Msg :=
  [{ src := "n1", dest := "n2",
     body := { msg_id := some 1, in_reply_to := none,
               extra := Payload.Broadcast 5 } },
   { src := "n1", dest := "c0",
     body := { msg_id := some 2, in_reply_to := some 1,
               extra := Payload.BroadcastOk } },
   { src := "n1", dest := "c0",
     body := { msg_id := some 3, in_reply_to := some 2,
               extra := Payload.BroadcastOk } }]

/-- A `read` request from the harness. -/
def c2Read : Msg :=
  { src := "c0", dest := "n1",
    body := { msg_id := some 7, in_reply_to := none, extra := Payload.Read } }

/-- C2 witness: after `broadcast{5}` twice, `read` answers `[5]`. -/
theorem c2_read_reflects_distinct_broadcasts_witness :
    ∃ n2 l, c2N1.handle c2Read = some (n2,
        [{ src := c2N1.id, dest := c2Read.src,
           body := { msg_id := some (c2N1.msg_ids + 1),
                     in_reply_to := c2Read.body.msg_id,
                     extra := Payload.ReadOk l } }]) ∧
      l.Nodup ∧ (∀ v : Nat, v ∈ l ↔ v ∈ bvals c2Evs) :=
  c2_read_reflects_distinct_broadcasts (Node.new "n1" ["n1", "n2"]) c2N1
    c2Evs c2Outs c2Read rfl (by decide) rfl

/-- C8: over any runs from freshly bootstrapped nodes, the `generate_ok`
ids a node hands out are pairwise distinct, and two nodes with different
node ids can never hand out a common id. -/
theorem c8_generate_ids_unique (idA idB : String)
    (nodesA nodesB : List String) (evsA evsB : List Event) (nA nB : Node)
    (outsA outsB : List Msg)
    (hA : (Node.new idA nodesA).run evsA = some (nA, outsA))
    (hB : (Node.new idB nodesB).run evsB = some (nB, outsB)) :
    (genIds outsA).Nodup ∧
    (idA ≠ idB → ∀ s ∈ genIds outsA, s ∉ genIds outsB) := by
  have hpA : pendingBroadcast (Node.new idA nodesA) := by
    intro e he
    simp [Node.new] at he
  have hpB : pendingBroadcast (Node.new idB nodesB) := by
    intro e he
    simp [Node.new] at he
  obtain ⟨csA, hA1, hA2, _⟩ := run_genIds evsA _ nA outsA hA hpA
  obtain ⟨csB, hB1, _, _⟩ := run_genIds evsB _ nB outsB hB hpB
  constructor
  · rw [hA1]
    exact List.Pairwise.map (mkId idA)
      (fun a b hab heq => absurd (mkId_inj heq).2 (Nat.ne_of_lt hab)) hA2
  · intro hne s hsa hsb
    rw [hA1] at hsa
    rw [hB1] at hsb
    obtain ⟨a, _, ha2⟩ := List.mem_map.mp hsa
    obtain ⟨b, _, hb2⟩ := List.mem_map.mp hsb
    exact hne (mkId_inj (ha2.trans hb2.symm)).1

/-- Two `generate` requests (for the C8 witness run of node `n1`). -/
def c8EvsA : List Event :=
  [Event.msg { src := "c0", dest := "n1",
               body := { msg_id := some 1, in_reply_to := none,
                         extra := Payload.Generate } },
   Event.msg { src := "c0", dest := "n1",
               body := { msg_id := some 2, in_reply_to := none,
                         extra := Payload.Generate } }]

/-- One `generate` request (for the C8 witness run of node `n2`). -/
def c8EvsB : List Event :=
  [Event.msg { src := "c0", dest := "n2",
               body := { msg_id := some 1, in_reply_to := none,
                         extra := Payload.Generate } }]

/-- Node `n1` after its two generates. -/
def c8NA : Node :=
  { id := "n1", nodes := ["n1", "n2"], msg_ids := 2, messages := [],
    pending := [] }

/-- Node `n2` after its generate. -/
def c8NB : Node :=
  { id := "n2", nodes := ["n1", "n2"], msg_ids := 1, messages := [],
    pending := [] }

/-- Outbound messages of node `n1`'s run: ids `n1-0` and `n1-1`. -/
def c8OutsA : List Msg :=
  [{ src := "n1", dest := "c0",
     body := { msg_id := some 1, in_reply_to := some 1,
               extra := Payload.GenerateOk "n1-0" } },
   { src := "n1", dest := "c0",
     body := { msg_id := some 2, in_reply_to := some 2,
               extra := Payload.GenerateOk "n1-1" } }]

/-- Outbound messages of node `n2`'s run: id `n2-0`. -/
def c8OutsB : List Msg :=
  [{ src := "n2", dest := "c0",
     body := { msg_id := some 1, in_reply_to := some 1,
               extra := Payload.GenerateOk "n2-0" } }]

/-- C8 witness: two concrete runs on nodes `n1` and `n2`. -/
theorem c8_generate_ids_unique_witness :
    (genIds c8OutsA).Nodup ∧
    ("n1" ≠ "n2" → ∀ s ∈ genIds c8OutsA, s ∉ genIds c8OutsB) :=
  c8_generate_ids_unique "n1" "n2" ["n1", "n2"] ["n1", "n2"] c8EvsA c8EvsB
    c8NA c8NB c8OutsA c8OutsB (by decide) (by decide)

example :
    Node.handle (Node.new "n1" ["n1", "n2"])
      { src := "c0", dest := "n1",
        body := { msg_id := some 1, in_reply_to := none,
                  extra := Payload.Broadcast 5 } } =
    some ({ id := "n1", nodes := ["n1", "n2"], msg_ids := 2, messages := [5],
            pending := [(1, "n2",
              { msg_id := some 1, in_reply_to := none,
                extra := Payload.Broadcast 5 })] },
          [{ src := "n1", dest := "n2",
             body := { msg_id := some 1, in_reply_to := none,
                       extra := Payload.Broadcast 5 } },
           { src := "n1", dest := "c0",
             body := { msg_id := some 2, in_reply_to := some 1,
                       extra := Payload.BroadcastOk } }]) := by decide
